import Mathlib

/-!
Verification of the wiretrustee control-plane core against its specification.

The management side (`management/server/peer.go`) is embedded in namespace
`Server`; the agent side (`client/internal/engine.go`) in namespace `Internal`.
Go maps are embedded as association lists (`List (String × _)`), Go pointers to
`PeerStatus` as addresses into an explicit status heap (`Nat → PeerStatus`),
`net.IP` as `Option Nat` (IPv4 address as a number; `none` models Go's nil IP),
and `time.Time` as `Nat`.  Code of the repository that is not part of the
sources at hand (the IP allocator, the setup-key helpers, the Store, the
connection state machine) is modelled from the specification; each such
definition carries a doc comment saying so.
-/

/-- Go map assignment `m[k] = v` over an association list: replaces the value
at key `k` when present, otherwise appends the binding. -/
def assocInsert {α : Type} (l : List (String × α)) (k : String) (v : α) :
    List (String × α) :=
  if l.any (fun e => e.1 == k) then
    l.map (fun e => if e.1 == k then (k, v) else e)
  else
    l ++ [(k, v)]

/-- Go `strings.ToUpper`, embedded at the character level (the library
function `String.toUpper` is defined through byte positions and does not
reduce inside the kernel). -/
def goToUpper (s : String) : String := ⟨s.data.map Char.toUpper⟩

namespace Server

/-! ## Management side — `management/server/peer.go` -/

/-- `PeerSystemMeta` is a metadata of a Peer machine system. -/
structure PeerSystemMeta where
  Hostname : String
  GoOS : String
  Kernel : String
  Core : String
  Platform : String
  OS : String
  WtVersion : String
deriving DecidableEq, Repr

/-- Status of a peer: last time seen by the management service and whether it
is currently connected. -/
structure PeerStatus where
  LastSeen : Nat
  Connected : Bool
deriving DecidableEq, Repr

/-- A machine connected to the network, identified by its Wireguard public
key.  The Go field `Status *PeerStatus` is a pointer; it is embedded as an
address (`Status : Nat`) into an explicit status heap `Nat → PeerStatus`. -/
structure Peer where
  Key : String
  SetupKey : String
  IP : Option Nat
  Meta : PeerSystemMeta
  Name : String
  Status : Nat
deriving DecidableEq, Repr

/-- `Peer.Copy` copies the Peer object.  Note that the `Status` field is the
pointer itself, so the copy shares the pointed-to `PeerStatus`. -/
def Peer.Copy (p : Peer) : Peer :=
  { Key := p.Key
    SetupKey := p.SetupKey
    IP := p.IP
    Meta := p.Meta
    Name := p.Name
    Status := p.Status }

/-- Modelled from the spec: SetupKey — "canonical value (upper-cased UUID
form); usage count; usage limit; expiry instant; revoked flag"
(the SetupKey type lives outside the sources at hand). -/
structure SetupKey where
  Key : String
  ExpiresAt : Nat
  Revoked : Bool
  UsedTimes : Nat
  UsageLimit : Nat
deriving DecidableEq, Repr

/-- Modelled from the spec: a SetupKey "becomes invalid when expired, revoked,
or usage ≥ limit" (`SetupKey.IsValid` is not among the sources at hand). -/
def SetupKey.IsValid (sk : SetupKey) (now : Nat) : Bool :=
  decide (now < sk.ExpiresAt) && !sk.Revoked && decide (sk.UsedTimes < sk.UsageLimit)

/-- Modelled from the spec: "mutated (usage++) on each successful
registration" (`SetupKey.IncrementUsage` is not among the sources at hand). -/
def SetupKey.IncrementUsage (sk : SetupKey) : SetupKey :=
  { sk with UsedTimes := sk.UsedTimes + 1 }

/-- Modelled from the spec: an IPv4 CIDR, "network (CIDR ...)".  `netBase` is
the network address as a 32-bit number, `prefixLen` the prefix length. -/
structure IPNet where
  netBase : Nat
  prefixLen : Nat
deriving DecidableEq, Repr

/-- Modelled from the spec: Account.network is a "CIDR + last-assigned IP
watermark"; per §4.2 "the watermark in Account.network is advisory". -/
structure Network where
  Net : IPNet
  LastIP : Option Nat
deriving DecidableEq, Repr

/-- Modelled from the spec, §4.2 IP Allocator (not among the sources at
hand): "Pure function `allocate(cidr, taken_set) → ip | Exhausted`.  Scans
host addresses of `cidr` in canonical ascending order, skipping the network
and broadcast addresses and any address present in `taken_set`, and returns
the first hit. ... `Exhausted` is reported when no host address remains."
`none` is the `Exhausted` outcome (in Go: a nil IP plus an error). -/
def AllocatePeerIP (ipNet : IPNet) (takenIps : List (Option Nat)) : Option Nat :=
  let sz := 2 ^ (32 - ipNet.prefixLen)
  ((List.range sz).map (fun i => ipNet.netBase + i)).find?
    (fun ip =>
      !(ip == ipNet.netBase) && !(ip == ipNet.netBase + sz - 1) &&
        !(takenIps.contains (some ip)))

/-- Account: one tenant, one address pool, one set of setup keys, one set of
peers.  Go maps become association lists. -/
structure Account where
  Id : String
  Network : Network
  Peers : List (String × Peer)
  SetupKeys : List (String × SetupKey)
deriving DecidableEq, Repr

/-- Modelled from the spec: `getAccountSetupKeyByKey` "locate[s] the SetupKey
record" inside the account (the helper is not among the sources at hand). -/
def getAccountSetupKeyByKey (account : Account) (upperKey : String) : Option SetupKey :=
  account.SetupKeys.lookup upperKey

/-- Modelled from the spec, §4.1: on an empty setup key, "synthesize a fresh
Account with a default-provisioned SetupKey" (`newAccount` is not among the
sources at hand; identifiers and key parameters are abstract placeholders —
no claim exercises this legacy path). -/
def newAccount : Account × SetupKey :=
  let sk : SetupKey :=
    { Key := "DEFAULT-KEY", ExpiresAt := 1000000000, Revoked := false
      UsedTimes := 0, UsageLimit := 1000000 }
  ({ Id := "new-account"
     Network := { Net := { netBase := 1681915904, prefixLen := 24 }, LastIP := none }
     Peers := []
     SetupKeys := [(sk.Key, sk)] }, sk)

/-- Modelled from the spec, §6 persisted state layout: the Store is a
"durable map of accounts" keyed by account id. -/
structure Store where
  Accounts : List (String × Account)
deriving DecidableEq, Repr

/-- Modelled from the spec: `get_account(id)`. -/
def Store.GetAccount (s : Store) (accountId : String) : Option Account :=
  s.Accounts.lookup accountId

/-- Modelled from the spec: `get_account_by_setup_key(upper_key)` — the
account owning the given (normalized) setup key. -/
def Store.GetAccountBySetupKey (s : Store) (upperKey : String) : Option Account :=
  (s.Accounts.find? (fun e => (e.2.SetupKeys.lookup upperKey).isSome)).map (fun e => e.2)

/-- Modelled from the spec: `get_peer(pubkey)` — the stored peer with the
given public key, in whichever account holds it. -/
def Store.GetPeer (s : Store) (peerKey : String) : Option Peer :=
  s.Accounts.findSome? (fun e => e.2.Peers.lookup peerKey)

/-- Modelled from the spec: `get_peer_account(pubkey)` — the account holding
the peer with the given public key. -/
def Store.GetPeerAccount (s : Store) (peerKey : String) : Option Account :=
  (s.Accounts.find? (fun e => (e.2.Peers.lookup peerKey).isSome)).map (fun e => e.2)

/-- Modelled from the spec: `save_account(account)` — atomic at the
granularity of the whole account, keyed by its id. -/
def Store.SaveAccount (s : Store) (account : Account) : Store :=
  { Accounts := assocInsert s.Accounts account.Id account }

/-- Modelled from the spec: `save_peer(account_id, peer)` — atomic replace of
one peer inside the identified account; fails when the account is unknown. -/
def Store.SavePeer (s : Store) (accountId : String) (p : Peer) : Option Store :=
  match s.Accounts.lookup accountId with
  | none => none
  | some account =>
    some { Accounts := assocInsert s.Accounts accountId
            { account with Peers := assocInsert account.Peers p.Key p } }

/-- Modelled from the spec: `delete_peer(account_id, pubkey) → Peer` —
removes and returns the peer; fails when account or peer is unknown. -/
def Store.DeletePeer (s : Store) (accountId : String) (peerKey : String) :
    Option (Store × Peer) :=
  match s.Accounts.lookup accountId with
  | none => none
  | some account =>
    match account.Peers.lookup peerKey with
    | none => none
    | some p =>
      some ({ Accounts := assocInsert s.Accounts accountId
               { account with Peers := account.Peers.filter (fun e => e.1 != peerKey) } }, p)

/-- The state threaded through the AccountManager operations: the Store plus
the heap of `PeerStatus` objects (Go pointers become addresses `Nat`;
`nextRef` is the next fresh address). -/
structure ManagerState where
  store : Store
  heap : Nat → PeerStatus
  nextRef : Nat

/-- Writing one `PeerStatus` cell of the status heap (a Go assignment through
a `*PeerStatus` pointer). -/
def heapWrite (h : Nat → PeerStatus) (r : Nat) (s : PeerStatus) : Nat → PeerStatus :=
  fun x => if x = r then s else h x

/-- gRPC-style status codes surfaced by the AccountManager operations. -/
inductive ErrCode where
  | NotFound
  | FailedPrecondition
  | Internal
deriving DecidableEq, Repr

/-- `GetPeer` returns a peer from a Store. -/
def GetPeer (ms : ManagerState) (peerKey : String) : Option Peer :=
  ms.store.GetPeer peerKey

/-- `MarkPeerConnected` marks peer as connected (true) or disconnected
(false): copy the peer, set `Status.LastSeen` to now and `Status.Connected`,
then `SavePeer`.  `saveOk` injects the outcome of the Store persistence
(`false` = the `SavePeer` I/O fails).  Returns the error (if any) together
with the resulting state — the status-heap writes happen before persistence
and are part of the state either way. -/
def MarkPeerConnected (ms : ManagerState) (peerKey : String) (connected : Bool)
    (now : Nat) (saveOk : Bool) : Option ErrCode × ManagerState :=
  match ms.store.GetPeer peerKey with
  | none => (some ErrCode.NotFound, ms)
  | some peer =>
    match ms.store.GetPeerAccount peerKey with
    | none => (some ErrCode.NotFound, ms)
    | some account =>
      let peerCopy := peer.Copy
      let h1 := heapWrite ms.heap peerCopy.Status
        { ms.heap peerCopy.Status with LastSeen := now }
      let h2 := heapWrite h1 peerCopy.Status
        { h1 peerCopy.Status with Connected := connected }
      let ms1 : ManagerState := { ms with heap := h2 }
      if saveOk then
        match ms1.store.SavePeer account.Id peerCopy with
        | none => (some ErrCode.Internal, ms1)
        | some store1 => (none, { ms1 with store := store1 })
      else (some ErrCode.Internal, ms1)

/-- `RenamePeer` changes peer's name: copy, set `Name`, `SavePeer`. -/
def RenamePeer (ms : ManagerState) (accountId : String) (peerKey : String)
    (newName : String) (saveOk : Bool) :
    Option ErrCode × ManagerState × Option Peer :=
  match ms.store.GetPeer peerKey with
  | none => (some ErrCode.NotFound, ms, none)
  | some peer =>
    let peerCopy := { peer.Copy with Name := newName }
    if saveOk then
      match ms.store.SavePeer accountId peerCopy with
      | none => (some ErrCode.Internal, ms, none)
      | some store1 => (none, { ms with store := store1 }, some peerCopy)
    else (some ErrCode.Internal, ms, none)

/-- `DeletePeer` removes peer from the account. -/
def DeletePeer (ms : ManagerState) (accountId : String) (peerKey : String) :
    Option ErrCode × ManagerState × Option Peer :=
  match ms.store.DeletePeer accountId peerKey with
  | none => (some ErrCode.NotFound, ms, none)
  | some (store1, p) => (none, { ms with store := store1 }, some p)

/-- `AddPeer` adds a new peer to the Store: normalize the setup key (empty
key: legacy new-account path), resolve account and SetupKey (`NotFound`),
check validity (`FailedPrecondition`), collect the taken IPs, allocate the
next IP — the Go code discards the allocator's error (`nextIp, _ :=`) — build
the new peer with a fresh status `{Connected: false, LastSeen: now}`, insert
it keyed by its public key, increment the SetupKey usage, and `SaveAccount`
(`saveOk` injects the persistence outcome; failure surfaces as `Internal`). -/
def AddPeer (ms : ManagerState) (setupKey : String) (peer : Peer) (now : Nat)
    (saveOk : Bool) : Option ErrCode × ManagerState × Option Peer :=
  let upperKey := goToUpper setupKey
  let found : Option (Account × SetupKey) :=
    if upperKey.length = 0 then
      some newAccount
    else
      match ms.store.GetAccountBySetupKey upperKey with
      | none => none
      | some account =>
        match getAccountSetupKeyByKey account upperKey with
        | none => none
        | some sk => some (account, sk)
  match found with
  | none => (some ErrCode.NotFound, ms, none)
  | some (account, sk) =>
    if !(sk.IsValid now) then (some ErrCode.FailedPrecondition, ms, none)
    else
      let takenIps := account.Peers.map (fun e => e.2.IP)
      let nextIp := AllocatePeerIP account.Network.Net takenIps
      let ref := ms.nextRef
      let h1 := heapWrite ms.heap ref { Connected := false, LastSeen := now }
      let newPeer : Peer :=
        { Key := peer.Key
          SetupKey := sk.Key
          IP := nextIp
          Meta := peer.Meta
          Name := peer.Name
          Status := ref }
      let account1 :=
        { account with
            Peers := assocInsert account.Peers newPeer.Key newPeer
            SetupKeys := assocInsert account.SetupKeys sk.Key sk.IncrementUsage }
      if saveOk then
        (none, { store := ms.store.SaveAccount account1, heap := h1, nextRef := ref + 1 },
          some newPeer)
      else
        (some ErrCode.Internal, { store := ms.store, heap := h1, nextRef := ref + 1 }, none)

/-- Driver formalizing "a sequence of registrations with one setup key": runs
`AddPeer` (with persistence succeeding) once per proposed peer, threading the
state; the Bool is `true` exactly when every call succeeded. -/
def registerSeq (setupKey : String) (now : Nat) :
    ManagerState → List Peer → ManagerState × Bool
  | ms, [] => (ms, true)
  | ms, p :: ps =>
    let r := AddPeer ms setupKey p now true
    let rest := registerSeq setupKey now r.2.1 ps
    (rest.1, r.1.isNone && rest.2)

end Server

namespace Internal

/-! ## Agent side — `client/internal/engine.go` -/

/-- Local state of a Connection state machine.  Modelled from the spec, §4.4:
"local state ∈ {Idle, Offering, Answering, Connected, Closed}" plus the
Negotiating state of the transition table (connection.go is not among the
sources at hand). -/
inductive ConnState where
  | Idle
  | Offering
  | Answering
  | Negotiating
  | Connected
  | Closed
deriving DecidableEq, Repr

/-- The part of `ConnConfig` the engine handlers consult. -/
structure ConnConfig where
  RemoteWgKey : String
  WgAllowedIPs : String
deriving DecidableEq, Repr

/-- A connection state machine instance for one remote peer. -/
structure Connection where
  Config : ConnConfig
  Status : ConnState
deriving DecidableEq, Repr

/-- Modelled from the spec, §4.4 (connection.go is not among the sources at
hand): a remote OFFER makes the receiving side answer and negotiate —
"Idle | remote OFFER arrives | Answering; emits ANSWER; → Negotiating". -/
def Connection.OnOffer (c : Connection) : Connection :=
  { c with Status := ConnState.Negotiating }

/-- Modelled from the spec, §4.4: "Offering | remote ANSWER arrives |
Negotiating". -/
def Connection.OnAnswer (c : Connection) : Connection :=
  { c with Status := ConnState.Negotiating }

/-- Modelled from the spec, §4.4: "Negotiating | every remote candidate | fed
into local ICE agent" — the candidate is consumed without a state change. -/
def Connection.OnRemoteCandidate (c : Connection) : Connection := c

/-- An instance of the Connection Peer (entry of a management update). -/
structure Peer where
  WgPubKey : String
  WgAllowedIps : String
deriving DecidableEq, Repr

/-- Signal message body.  The wire payload of OFFER/ANSWER is a marshalled
`{uFrag, pwd}` credential and of CANDIDATE the candidate's text form; the
codec is an external collaborator, so bodies are embedded already parsed. -/
inductive Body where
  | OFFER (uFrag : String) (pwd : String)
  | ANSWER (uFrag : String) (pwd : String)
  | CANDIDATE (payload : String)
  | UNKNOWN
deriving DecidableEq, Repr

/-- A signal envelope: `Key` is the sender's public key, `RemoteKey` the
intended receiver's public key. -/
structure Message where
  Key : String
  RemoteKey : String
  Body : Body
deriving DecidableEq, Repr

/-- The callback registered by `receiveSignalEvents`, acting on the engine's
connection map `conns`: look the SENDER key up in `conns` (`nil` → error
"wrongly addressed message"), compare the connection's configured remote key
against the SENDER key (mismatch → error "unknown peer"), then dispatch on
the body type.  `localKey` is the engine's own public key; the handler has it
in scope (through the engine config) but never consults it. -/
def receiveSignalEvents (localKey : String) (conns : List (String × Connection))
    (msg : Message) : Except String (List (String × Connection)) :=
  match conns.lookup msg.Key with
  | none => Except.error ("wrongly addressed message " ++ msg.Key)
  | some conn =>
    if conn.Config.RemoteWgKey ≠ msg.Key then
      Except.error ("unknown peer " ++ msg.Key)
    else
      match msg.Body with
      | Body.OFFER _ _ => Except.ok (assocInsert conns msg.Key conn.OnOffer)
      | Body.ANSWER _ _ => Except.ok (assocInsert conns msg.Key conn.OnAnswer)
      | Body.CANDIDATE _ => Except.ok (assocInsert conns msg.Key conn.OnRemoteCandidate)
      | Body.UNKNOWN => Except.ok conns

/-- One remote peer entry of a management `SyncResponse`. -/
structure RemotePeerConfig where
  WgPubKey : String
  AllowedIps : List String
deriving DecidableEq, Repr

/-- The callback registered by `receiveManagementEvents`, reconciling `conns`
against the update's remote peer list: when the list is non-empty, remove
every connection whose key is not listed (delete + Close), then spawn an
initializer for every listed peer not in `conns`; when the list is EMPTY the
whole block is skipped (`if len(remotePeers) != 0`).  Returns the new `conns`
and the peers handed to spawned initializers. -/
def receiveManagementEvents (conns : List (String × Connection))
    (remotePeers : List RemotePeerConfig) :
    List (String × Connection) × List Peer :=
  if remotePeers.length ≠ 0 then
    let remotePeerKeys := remotePeers.map (fun p => p.WgPubKey)
    let conns1 := conns.filter (fun e => remotePeerKeys.contains e.1)
    let spawned := remotePeers.filterMap (fun p =>
      if (conns1.lookup p.WgPubKey).isNone then
        some { WgPubKey := p.WgPubKey
               WgAllowedIps := String.intercalate "," p.AllowedIps }
      else none)
    (conns1, spawned)
  else
    (conns, [])

/-- Modelled from the spec, §4.4 (connection.go is not among the sources at
hand): `NewConnection` creates the per-peer state machine in its initial
state. -/
def NewConnection (peer : Peer) : Connection :=
  { Config := { RemoteWgKey := peer.WgPubKey, WgAllowedIPs := peer.WgAllowedIps }
    Status := ConnState.Idle }

/-- The connection object as it stands when `Open` returns: `Connected` on
success; on failure (timeout) the state machine has transitioned to `Closed`
(spec §4.4: "`Close` or timeout elapsed before Connected → Closed"). -/
def connAfterOpen (peer : Peer) (openErr : Bool) : Connection :=
  { NewConnection peer with
      Status := if openErr then ConnState.Closed else ConnState.Connected }

/-- Outcome of one iteration of the initializer's retry loop: exit without
retrying (peer gone from `conns`), retry (Open failed), or done. -/
inductive InitDecision where
  | exitNoRetry
  | retry
  | done
deriving DecidableEq, Repr

/-- One iteration of `initializePeer`'s backoff operation, made explicit over
the interleaving with the reconciler: `openPeerConnection` first inserts the
freshly built connection into `conns` and only then blocks in `Open`; a
concurrent removal can land during that blocking call (`removedDuringOpen`).
Back in the operation, the peer-mux is taken and the absence check runs: if
`conns` no longer holds the peer the iteration exits without retrying; else a
failed `Open` yields a retry. -/
def initializePeerStep (conns : List (String × Connection)) (peer : Peer)
    (removedDuringOpen : Bool) (openErr : Bool) :
    List (String × Connection) × InitDecision :=
  let conns1 := assocInsert conns peer.WgPubKey (connAfterOpen peer openErr)
  let conns2 :=
    if removedDuringOpen then conns1.filter (fun e => e.1 != peer.WgPubKey)
    else conns1
  if (conns2.lookup peer.WgPubKey).isNone then (conns2, InitDecision.exitNoRetry)
  else if openErr then (conns2, InitDecision.retry)
  else (conns2, InitDecision.done)

end Internal

/-! ## Concrete fixtures for counterexamples and witnesses -/

/-- Empty machine metadata for example peers. -/
def exMeta : Server.PeerSystemMeta :=
  { Hostname := "", GoOS := "", Kernel := "", Core := "", Platform := "", OS := ""
    WtVersion := "" }

/-- A proposed peer, as handed to `AddPeer` (its `IP` and `Status` are
placeholders that `AddPeer` overwrites). -/
def exProposedPeer (k : String) : Server.Peer :=
  { Key := k, SetupKey := "", IP := none, Meta := exMeta, Name := k, Status := 0 }

/-- Example setup key `SK1`: unexpired, not revoked, usage 0 of 10. -/
def exSetupKey : Server.SetupKey :=
  { Key := "SK1", ExpiresAt := 1000, Revoked := false, UsedTimes := 0, UsageLimit := 10 }

/-- The network 10.0.0.0/24 (10.0.0.0 = 167772160). -/
def exNetwork : Server.Network :=
  { Net := { netBase := 167772160, prefixLen := 24 }, LastIP := none }

/-- Account `acc1` on 10.0.0.0/24 with setup key `SK1` and no peers yet. -/
def exAccount : Server.Account :=
  { Id := "acc1", Network := exNetwork, Peers := [], SetupKeys := [("SK1", exSetupKey)] }

/-- Manager state holding just `acc1`. -/
def exState : Server.ManagerState :=
  { store := { Accounts := [("acc1", exAccount)] }
    heap := fun _ => { LastSeen := 0, Connected := false }
    nextRef := 0 }

/-- State after registering P1 in `exState` (P1 received 10.0.0.1). -/
def c1State1 : Server.ManagerState :=
  (Server.AddPeer exState "SK1" (exProposedPeer "P1") 1 true).2.1

/-- State after additionally registering P2 (P2 received 10.0.0.2). -/
def c1State2 : Server.ManagerState :=
  (Server.AddPeer c1State1 "SK1" (exProposedPeer "P2") 2 true).2.1

/-- State after additionally deleting P1. -/
def c1State3 : Server.ManagerState :=
  (Server.DeletePeer c1State2 "acc1" "P1").2.1

/-- The account `acc1` as it stands inside `c1State1` (used to instantiate
the amended C1 theorem at a concrete input). -/
def exAccountAfterP1 : Server.Account :=
  { Id := "acc1", Network := exNetwork
    Peers := [("P1", { Key := "P1", SetupKey := "SK1", IP := some 167772161
                       Meta := exMeta, Name := "P1", Status := 0 })]
    SetupKeys := [("SK1", { exSetupKey with UsedTimes := 1 })] }

/-- A stored peer whose status cell lives at heap address 0. -/
def exStoredPeer : Server.Peer :=
  { Key := "PK", SetupKey := "SK1", IP := some 167772161, Meta := exMeta
    Name := "peer-a", Status := 0 }

/-- Account `acc1` holding the one stored peer `PK`. -/
def exMarkAccount : Server.Account :=
  { Id := "acc1", Network := exNetwork, Peers := [("PK", exStoredPeer)]
    SetupKeys := [("SK1", exSetupKey)] }

/-- Manager state holding `acc1` with the one stored peer `PK`; its status
cell (address 0) reads `{LastSeen := 5, Connected := false}`. -/
def exMarkState : Server.ManagerState :=
  { store := { Accounts := [("acc1", exMarkAccount)] }
    heap := fun _ => { LastSeen := 5, Connected := false }
    nextRef := 1 }

/-- The tiny network 10.0.0.0/30: its only host addresses are 10.0.0.1
(167772161) and 10.0.0.2 (167772162). -/
def exTinyNetwork : Server.Network :=
  { Net := { netBase := 167772160, prefixLen := 30 }, LastIP := none }

/-- Account on 10.0.0.0/30 with BOTH host addresses already assigned. -/
def exFullAccount : Server.Account :=
  { Id := "acc1", Network := exTinyNetwork
    Peers := [("P1", { Key := "P1", SetupKey := "SK1", IP := some 167772161
                       Meta := exMeta, Name := "P1", Status := 0 }),
              ("P2", { Key := "P2", SetupKey := "SK1", IP := some 167772162
                       Meta := exMeta, Name := "P2", Status := 1 })]
    SetupKeys := [("SK1", exSetupKey)] }

/-- Manager state whose only account has an exhausted address pool. -/
def exFullState : Server.ManagerState :=
  { store := { Accounts := [("acc1", exFullAccount)] }
    heap := fun _ => { LastSeen := 0, Connected := false }
    nextRef := 2 }

/-- A setup key already at its usage limit (5 of 5). -/
def exSpentKey : Server.SetupKey :=
  { Key := "LK", ExpiresAt := 1000, Revoked := false, UsedTimes := 5, UsageLimit := 5 }

/-- Account `acc2` whose only setup key is spent. -/
def exSpentAccount : Server.Account :=
  { Id := "acc2", Network := exNetwork, Peers := [], SetupKeys := [("LK", exSpentKey)] }

/-- Manager state holding `acc2`. -/
def exSpentState : Server.ManagerState :=
  { store := { Accounts := [("acc2", exSpentAccount)] }
    heap := fun _ => { LastSeen := 0, Connected := false }
    nextRef := 0 }

/-- A one-shot setup key: usage 0 of limit 1. -/
def exOneShotKey : Server.SetupKey :=
  { Key := "LK1", ExpiresAt := 1000, Revoked := false, UsedTimes := 0, UsageLimit := 1 }

/-- Account `acc3` holding the one-shot key. -/
def exOneShotAccount : Server.Account :=
  { Id := "acc3", Network := exNetwork, Peers := [], SetupKeys := [("LK1", exOneShotKey)] }

/-- Manager state holding `acc3`. -/
def exOneShotState : Server.ManagerState :=
  { store := { Accounts := [("acc3", exOneShotAccount)] }
    heap := fun _ => { LastSeen := 0, Connected := false }
    nextRef := 0 }

/-- An engine connection for remote peer P1 in its initial state. -/
def exConnIdle : Internal.Connection :=
  { Config := { RemoteWgKey := "P1", WgAllowedIPs := "10.0.0.2/32" }
    Status := Internal.ConnState.Idle }

/-- The engine-side peer P1 as handed to an initializer. -/
def exEnginePeer : Internal.Peer :=
  { WgPubKey := "P1", WgAllowedIps := "10.0.0.2/32" }

/-! ## Association-list helper lemmas -/

section AssocLemmas

variable {α : Type}

theorem lookup_cons_eq (l : List (String × α)) (k k2 : String) (v : α) :
    ((k2, v) :: l).lookup k = if k = k2 then some v else l.lookup k := by
  by_cases h : k = k2
  · simp [List.lookup, h]
  · have hb : (k == k2) = false := by simp [h]
    simp [List.lookup, hb, h]

theorem lookup_keyReplace (l : List (String × α)) (k : String) (v : α) :
    (l.map (fun e => if e.1 == k then (k, v) else e)).lookup k =
      if l.any (fun e => e.1 == k) then some v else none := by
  induction l with
  | nil => rfl
  | cons e l ih =>
    obtain ⟨e1, e2⟩ := e
    by_cases he : e1 = k
    · subst he
      simp [lookup_cons_eq]
    · have hb : (e1 == k) = false := by simp [he]
      simp only [List.map_cons, List.any_cons]
      rw [show (if ((e1, e2).1 == k) = true then (k, v) else (e1, e2)) = (e1, e2) from
        if_neg (by simp [he])]
      rw [lookup_cons_eq, if_neg (fun hk => he hk.symm)]
      simp only [hb, Bool.false_or]
      exact ih

theorem lookup_keyReplace_ne (l : List (String × α)) (k k2 : String) (v : α)
    (h : k2 ≠ k) :
    (l.map (fun e => if e.1 == k then (k, v) else e)).lookup k2 = l.lookup k2 := by
  induction l with
  | nil => rfl
  | cons e l ih =>
    obtain ⟨e1, e2⟩ := e
    by_cases he : e1 = k
    · subst he
      simp only [List.map_cons]
      rw [show (if ((e1, e2).1 == e1) = true then (e1, v) else (e1, e2)) = (e1, v) from
        if_pos (by simp)]
      rw [lookup_cons_eq, lookup_cons_eq, ih, if_neg h, if_neg h]
    · simp only [List.map_cons]
      rw [show (if ((e1, e2).1 == k) = true then (k, v) else (e1, e2)) = (e1, e2) from
        if_neg (by simp [he])]
      rw [lookup_cons_eq, lookup_cons_eq, ih]

theorem lookup_append_left_none (l l2 : List (String × α)) (k : String)
    (h : l.lookup k = none) : (l ++ l2).lookup k = l2.lookup k := by
  induction l with
  | nil => rfl
  | cons e l ih =>
    obtain ⟨e1, e2⟩ := e
    rw [List.cons_append, lookup_cons_eq]
    rw [lookup_cons_eq] at h
    by_cases hk : k = e1
    · rw [if_pos hk] at h; exact absurd h (by simp)
    · rw [if_neg hk] at h
      rw [if_neg hk]
      exact ih h

theorem any_key_false_lookup_none (l : List (String × α)) (k : String)
    (h : l.any (fun e => e.1 == k) = false) : l.lookup k = none := by
  induction l with
  | nil => rfl
  | cons e l ih =>
    obtain ⟨e1, e2⟩ := e
    simp only [List.any_cons, Bool.or_eq_false_iff] at h
    rw [lookup_cons_eq, if_neg (by
      intro hk
      subst hk
      have := h.1
      simp at this)]
    exact ih h.2

theorem lookup_assocInsert_self (l : List (String × α)) (k : String) (v : α) :
    (assocInsert l k v).lookup k = some v := by
  unfold assocInsert
  cases hany : l.any (fun e => e.1 == k) with
  | true => rw [if_pos rfl, lookup_keyReplace, hany]; rfl
  | false =>
    rw [if_neg (by simp)]
    rw [lookup_append_left_none _ _ _ (any_key_false_lookup_none l k hany)]
    rw [lookup_cons_eq, if_pos rfl]

theorem lookup_assocInsert_ne (l : List (String × α)) (k k2 : String) (v : α)
    (h : k2 ≠ k) : (assocInsert l k v).lookup k2 = l.lookup k2 := by
  unfold assocInsert
  cases hany : l.any (fun e => e.1 == k) with
  | true => rw [if_pos rfl]; exact lookup_keyReplace_ne l k k2 v h
  | false =>
    rw [if_neg (by simp)]
    induction l with
    | nil => simp [lookup_cons_eq, h]
    | cons e l ih =>
      obtain ⟨e1, e2⟩ := e
      simp only [List.any_cons, Bool.or_eq_false_iff] at hany
      rw [List.cons_append, lookup_cons_eq, lookup_cons_eq]
      by_cases hk : k2 = e1
      · rw [if_pos hk, if_pos hk]
      · rw [if_neg hk, if_neg hk]
        exact ih hany.2

theorem find?_cons_true {β : Type} (a : β) (l : List β) (p : β → Bool)
    (h : p a = true) : (a :: l).find? p = some a := by
  unfold List.find?
  rw [h]

theorem find?_append_left_false {β : Type} (pre rest : List β) (p : β → Bool)
    (h : ∀ e ∈ pre, p e = false) : (pre ++ rest).find? p = rest.find? p := by
  induction pre with
  | nil => rfl
  | cons e l ih =>
    rw [List.cons_append, List.find?_cons, h e (by simp)]
    exact ih (fun x hx => h x (by simp [hx]))

theorem findSome?_append_left_none {β γ : Type} (pre rest : List β)
    (f : β → Option γ) (h : ∀ e ∈ pre, f e = none) :
    (pre ++ rest).findSome? f = rest.findSome? f := by
  induction pre with
  | nil => rfl
  | cons e l ih =>
    rw [List.cons_append, List.findSome?_cons, h e (by simp)]
    exact ih (fun x hx => h x (by simp [hx]))

theorem lookup_none_of_keys_ne (l : List (String × α)) (k : String)
    (h : ∀ e ∈ l, e.1 ≠ k) : l.lookup k = none := by
  induction l with
  | nil => rfl
  | cons e l ih =>
    rw [lookup_cons_eq, if_neg (fun hk => h e (by simp) (by rw [hk]))]
    exact ih (fun x hx => h x (by simp [hx]))

theorem keys_ne_of_lookup_none (l : List (String × α)) (k : String)
    (h : l.lookup k = none) : ∀ e ∈ l, e.1 ≠ k := by
  induction l with
  | nil => simp
  | cons e l ih =>
    obtain ⟨e1, e2⟩ := e
    rw [lookup_cons_eq] at h
    by_cases hk : k = e1
    · rw [if_pos hk] at h; exact absurd h (by simp)
    · rw [if_neg hk] at h
      intro x hx
      rcases List.mem_cons.mp hx with hx | hx
      · subst hx; exact fun he => hk he.symm
      · exact ih h x hx

theorem lookup_filter_out_key (l : List (String × α)) (k : String) :
    (l.filter (fun e => e.1 != k)).lookup k = none := by
  apply lookup_none_of_keys_ne
  intro e he
  have := List.of_mem_filter he
  simpa using this

theorem map_id_of_forall_eq {β : Type} (l : List β) (f : β → β)
    (h : ∀ e ∈ l, f e = e) : l.map f = l := by
  induction l with
  | nil => rfl
  | cons e l ih =>
    rw [List.map_cons, h e (by simp), ih (fun x hx => h x (by simp [hx]))]

theorem mem_keys_of_lookup_some (l : List (String × α)) (k : String) (v : α)
    (h : l.lookup k = some v) : k ∈ l.map (fun e => e.1) := by
  induction l with
  | nil => cases h
  | cons e l ih =>
    obtain ⟨e1, e2⟩ := e
    rw [lookup_cons_eq] at h
    by_cases hk : k = e1
    · subst hk
      simp
    · rw [if_neg hk] at h
      simp only [List.map_cons, List.mem_cons]
      exact Or.inr (ih h)

/-- `assocInsert` on a list decomposed around its (first) binding of `k`,
when no earlier entry has key `k`. -/
theorem assocInsert_decomp (pre post : List (String × α)) (k : String)
    (v0 v : α) (hpre : ∀ e ∈ pre, e.1 ≠ k) :
    assocInsert (pre ++ (k, v0) :: post) k v =
      pre ++ (k, v) :: post.map (fun e => if e.1 == k then (k, v) else e) := by
  unfold assocInsert
  have hany : ((pre ++ (k, v0) :: post).any (fun e => e.1 == k)) = true := by
    rw [List.any_append]
    simp
  rw [if_pos (by rw [hany])]
  rw [List.map_append, List.map_cons]
  congr 1
  · exact map_id_of_forall_eq _ _ (fun e he => by
      rw [if_neg (by simp [hpre e he])])
  · congr 1
    rw [if_pos (by simp)]

end AssocLemmas

/-! ## Claim C10 — `Peer.Copy` shares the `PeerStatus` object -/

/-- Claim C10: `Peer.Copy` returns a peer value whose `Status` field is the
very same reference as the original's (the pointer is copied, not the
pointed-to struct), so a status written through the copy's reference is read
back through the original peer's reference. -/
theorem copy_shares_status_reference (p : Server.Peer) (h : Nat → Server.PeerStatus)
    (s : Server.PeerStatus) :
    p.Copy.Status = p.Status ∧
    Server.heapWrite h p.Copy.Status s p.Status = s := by
  refine ⟨rfl, ?_⟩
  simp [Server.heapWrite, Server.Peer.Copy]

/-! ## Claim C5 — mark-connected is not atomic when persistence fails -/

/-- Claim C5 (code bug): `MarkPeerConnected` with a failing `SavePeer` returns
an error, yet the stored peer's state HAS changed: `Peer.Copy` shares the
`Status` pointer, so the two field writes performed before persistence mutate
the stored peer's status in place.  At this input the call errors with
`Internal` while the status cell read through the stored peer moves from
`{LastSeen := 5, Connected := false}` to `{LastSeen := 10, Connected := true}`;
the Store itself is unchanged. -/
theorem mark_connected_save_failure_mutates_status :
    (Server.MarkPeerConnected exMarkState "PK" true 10 false).1 =
      some Server.ErrCode.Internal ∧
    (Server.MarkPeerConnected exMarkState "PK" true 10 false).2.store =
      exMarkState.store ∧
    exMarkState.heap exStoredPeer.Status = { LastSeen := 5, Connected := false } ∧
    (Server.MarkPeerConnected exMarkState "PK" true 10 false).2.heap exStoredPeer.Status =
      { LastSeen := 10, Connected := true } := by
  refine ⟨by decide, by decide, by decide, by decide⟩

/-! ## Claim C4 — exhausted address pool does not fail registration -/

/-- Claim C4 (code bug): with every host address of the /30 network already
assigned, the allocator reports exhaustion (`none`), but `AddPeer` discards
that error (`nextIp, _ := AllocatePeerIP(...)` in the Go source), SUCCEEDS,
and both returns and stores a peer whose IP is nil — instead of failing with
`Exhausted` and inserting nothing. -/
theorem exhausted_network_inserts_nil_ip_peer :
    Server.AllocatePeerIP exTinyNetwork.Net
      (exFullAccount.Peers.map (fun e => e.2.IP)) = none ∧
    (Server.AddPeer exFullState "SK1" (exProposedPeer "P3") 7 true).1 = none ∧
    ((Server.AddPeer exFullState "SK1" (exProposedPeer "P3") 7 true).2.2).map
      (fun p => p.IP) = some none ∧
    ((Server.AddPeer exFullState "SK1" (exProposedPeer "P3") 7 true).2.1.store.GetPeer
      "P3").map (fun p => p.IP) = some none ∧
    (Server.AddPeer exFullState "SK1" (exProposedPeer "P3") 7 true).2.1.store.GetPeer "P3" =
      (Server.AddPeer exFullState "SK1" (exProposedPeer "P3") 7 true).2.2 := by
  refine ⟨by decide, by decide, by decide, by decide, by decide⟩

/-! ## Claim C2 — the signal handler never checks the receiver field -/

/-- Claim C2 (counterexample): a signal message addressed to someone else
(`RemoteKey = "SOMEONEELSE" ≠ "LOCALKEY"`, the engine's local key) whose
SENDER has an entry in `conns` is NOT rejected: the handler returns `ok` (no
error) and advances the connection's state from Idle to Negotiating. -/
theorem wrong_addressee_offer_processed :
    ("SOMEONEELSE" : String) ≠ "LOCALKEY" ∧
    Internal.receiveSignalEvents "LOCALKEY" [("P1", exConnIdle)]
      { Key := "P1", RemoteKey := "SOMEONEELSE", Body := Internal.Body.OFFER "u" "p" } =
    Except.ok [("P1", { exConnIdle with Status := Internal.ConnState.Negotiating })] :=
  ⟨by decide, rfl⟩

/-- Claim C2 (amended): the signal handler validates only the SENDER: its
result does not depend on the message's receiver field (`RemoteKey`) nor on
the engine's local key, and it succeeds exactly when `conns` holds an entry
for `msg.Key` whose configured remote key equals `msg.Key`. -/
theorem signal_handler_ignores_receiver_field (localKey localKey2 rk rk2 : String)
    (conns : List (String × Internal.Connection)) (msg : Internal.Message) :
    (Internal.receiveSignalEvents localKey conns { msg with RemoteKey := rk } =
      Internal.receiveSignalEvents localKey2 conns { msg with RemoteKey := rk2 }) ∧
    ((∃ r, Internal.receiveSignalEvents localKey conns msg = Except.ok r) ↔
      (∃ conn, conns.lookup msg.Key = some conn ∧
        conn.Config.RemoteWgKey = msg.Key)) := by
  constructor
  · rfl
  · unfold Internal.receiveSignalEvents
    cases h : conns.lookup msg.Key with
    | none =>
      constructor
      · rintro ⟨r, hr⟩
        cases hr
      · rintro ⟨conn, hc, _⟩
        cases hc
    | some conn =>
      dsimp only
      by_cases hk : conn.Config.RemoteWgKey = msg.Key
      · rw [if_neg (by simpa using hk)]
        constructor
        · intro _
          exact ⟨conn, rfl, hk⟩
        · intro _
          cases hb : msg.Body <;> exact ⟨_, rfl⟩
      · rw [if_pos (by simpa using hk)]
        constructor
        · rintro ⟨r, hr⟩
          cases hr
        · rintro ⟨conn2, hc, hck⟩
          cases hc
          exact absurd hck hk

/-! ## Claim C3 — reconciliation skips empty updates -/

/-- Claim C3 (counterexample): an update carrying an EMPTY peer list does not
reconcile at all (the Go code guards the whole block with
`if len(remotePeers) != 0`): a `conns` map holding P1 stays untouched and no
initializer is spawned, although the update's pubkey set is empty. -/
theorem empty_update_leaves_conns :
    Internal.receiveManagementEvents [("P1", exConnIdle)] [] =
      ([("P1", exConnIdle)], []) ∧
    ([] : List Internal.RemotePeerConfig).map (fun p => p.WgPubKey) = [] :=
  ⟨rfl, rfl⟩

/-! ## Claim C8 — a removed peer is re-added by its initializer -/

/-- Claim C8 (counterexample): P1's entry was already removed from `conns`
(the map is empty) while its initializer was between iterations; on the next
iteration `openPeerConnection` RE-INSERTS P1 into `conns` before the absence
check runs, so the initializer does not observe the removal: with `Open`
failing, the decision is `retry` (not an exit), and `conns` contains P1 again
afterwards. -/
theorem initializer_readds_removed_peer :
    (Internal.initializePeerStep [] exEnginePeer false true).2 =
      Internal.InitDecision.retry ∧
    ((Internal.initializePeerStep [] exEnginePeer false true).1.lookup "P1").isSome =
      true := by
  refine ⟨by decide, by decide⟩

/-- Claim C8 (amended): when the removal lands DURING the blocking `Open`
call — i.e. after `openPeerConnection` has (re-)inserted the entry — the
initializer's check observes the peer's absence, the iteration exits without
retrying, and `conns` does not contain the peer afterwards, whatever the
`Open` outcome was. -/
theorem initializer_exits_on_removal_during_open
    (conns : List (String × Internal.Connection)) (peer : Internal.Peer)
    (openErr : Bool) :
    (Internal.initializePeerStep conns peer true openErr).2 =
      Internal.InitDecision.exitNoRetry ∧
    (Internal.initializePeerStep conns peer true openErr).1.lookup peer.WgPubKey =
      none := by
  have hl := lookup_filter_out_key
    (assocInsert conns peer.WgPubKey (Internal.connAfterOpen peer openErr))
    peer.WgPubKey
  refine ⟨?_, ?_⟩ <;> simp [Internal.initializePeerStep, hl]

/-! ## Claim C1 — assigned IPs are in-CIDR and fresh, but reused after delete -/

/-- Soundness of the (spec-modelled) allocator: an allocated address is a
host address strictly inside the CIDR (neither the network nor the broadcast
address) and is not in the taken set. -/
theorem AllocatePeerIP_sound (ipNet : Server.IPNet) (taken : List (Option Nat))
    (ip : Nat) (h : Server.AllocatePeerIP ipNet taken = some ip) :
    ipNet.netBase < ip ∧
    ip < ipNet.netBase + 2 ^ (32 - ipNet.prefixLen) - 1 ∧
    some ip ∉ taken := by
  unfold Server.AllocatePeerIP at h
  have hp := List.find?_some h
  have hm := List.mem_of_find?_eq_some h
  obtain ⟨i, hi, hip⟩ := List.mem_map.mp hm
  have hisz : i < 2 ^ (32 - ipNet.prefixLen) := List.mem_range.mp hi
  simp only [Bool.and_eq_true, Bool.not_eq_true'] at hp
  obtain ⟨⟨hne1, hne2⟩, hcont⟩ := hp
  have hne1' : ip ≠ ipNet.netBase := by
    intro he
    rw [he] at hne1
    simp at hne1
  have hne2' : ip ≠ ipNet.netBase + 2 ^ (32 - ipNet.prefixLen) - 1 := by
    intro he
    rw [he] at hne2
    simp at hne2
  refine ⟨?_, ?_, ?_⟩
  · omega
  · omega
  · intro hmem
    have hc2 : taken.contains (some ip) = true := List.elem_iff.mpr hmem
    rw [hc2] at hcont
    cases hcont

/-- Claim C1 (counterexample): in account `acc1` on `10.0.0.0/24`
(10.0.0.0 = 167772160), register P1 (it gets 10.0.0.1 = 167772161) and P2
(10.0.0.2), delete P1, then register P3: the code assigns P3 the REUSED
address 10.0.0.1, not 10.0.0.3 (167772163) — `AddPeer` hands the allocator
only the LIVE peers' addresses and never consults or advances a watermark, so
a deleted peer's address is the next first-fit hit. -/
theorem ip_reuse_after_delete_scenario :
    ((Server.AddPeer exState "SK1" (exProposedPeer "P1") 1 true).2.2).map
      (fun p => p.IP) = some (some 167772161) ∧
    ((Server.AddPeer c1State1 "SK1" (exProposedPeer "P2") 2 true).2.2).map
      (fun p => p.IP) = some (some 167772162) ∧
    (Server.DeletePeer c1State2 "acc1" "P1").1 = none ∧
    ((Server.AddPeer c1State3 "SK1" (exProposedPeer "P3") 3 true).2.2).map
      (fun p => p.IP) = some (some 167772161) ∧
    (167772161 : Nat) ≠ 167772163 := by
  refine ⟨by decide, by decide, by decide, by decide, by decide⟩

/-- Evaluation of `AddPeer` on its success path (non-empty normalized key
resolving to a valid SetupKey, persistence succeeding). -/
theorem AddPeer_eval_success (ms : Server.ManagerState) (setupKey : String)
    (peer : Server.Peer) (now : Nat) (account : Server.Account) (sk : Server.SetupKey)
    (hlen : (goToUpper setupKey).length ≠ 0)
    (hacc : ms.store.GetAccountBySetupKey (goToUpper setupKey) = some account)
    (hsk : Server.getAccountSetupKeyByKey account (goToUpper setupKey) = some sk)
    (hvalid : sk.IsValid now = true) :
    Server.AddPeer ms setupKey peer now true =
      (none,
       { store := ms.store.SaveAccount
           { account with
               Peers := assocInsert account.Peers peer.Key
                 { Key := peer.Key, SetupKey := sk.Key
                   IP := Server.AllocatePeerIP account.Network.Net
                           (account.Peers.map (fun e => e.2.IP))
                   Meta := peer.Meta, Name := peer.Name, Status := ms.nextRef }
               SetupKeys := assocInsert account.SetupKeys sk.Key sk.IncrementUsage }
         heap := Server.heapWrite ms.heap ms.nextRef { LastSeen := now, Connected := false }
         nextRef := ms.nextRef + 1 },
       some { Key := peer.Key, SetupKey := sk.Key
              IP := Server.AllocatePeerIP account.Network.Net
                      (account.Peers.map (fun e => e.2.IP))
              Meta := peer.Meta, Name := peer.Name, Status := ms.nextRef }) := by
  simp only [Server.AddPeer, if_neg hlen, hacc, hsk, hvalid, Bool.not_true]
  rfl

/-- Claim C1 (amended): every IP assigned by a successful registration is a
host address strictly inside the account's network CIDR and differs from the
IP of every peer present in the account at that moment; addresses of DELETED
peers, however, may be handed out again (see the counterexample), because
allocation is first-fit over the live peers' addresses only. -/
theorem allocated_ip_in_cidr_and_fresh (ms : Server.ManagerState) (setupKey : String)
    (peer : Server.Peer) (now : Nat) (account : Server.Account) (sk : Server.SetupKey)
    (np : Server.Peer) (i : Nat)
    (hlen : (goToUpper setupKey).length ≠ 0)
    (hacc : ms.store.GetAccountBySetupKey (goToUpper setupKey) = some account)
    (hsk : Server.getAccountSetupKeyByKey account (goToUpper setupKey) = some sk)
    (hvalid : sk.IsValid now = true)
    (hnp : (Server.AddPeer ms setupKey peer now true).2.2 = some np)
    (hip : np.IP = some i) :
    account.Network.Net.netBase < i ∧
    i < account.Network.Net.netBase + 2 ^ (32 - account.Network.Net.prefixLen) - 1 ∧
    ∀ e ∈ account.Peers, e.2.IP ≠ some i := by
  rw [AddPeer_eval_success ms setupKey peer now account sk hlen hacc hsk hvalid] at hnp
  have hnp3 := Option.some_inj.mp hnp
  have halloc : Server.AllocatePeerIP account.Network.Net
      (account.Peers.map (fun e => e.2.IP)) = some i := by
    rw [← hnp3] at hip
    exact hip
  obtain ⟨h1, h2, h3⟩ := AllocatePeerIP_sound _ _ _ halloc
  refine ⟨h1, h2, ?_⟩
  intro e he hei
  exact h3 (by
    rw [← hei]
    exact List.mem_map.mpr ⟨e, he, rfl⟩)

/-- Witness for the amended Claim C1: registering P2 into the account that
already holds P1 at 10.0.0.1 yields an address (10.0.0.2 = 167772162) inside
10.0.0.0/24 and distinct from P1's. -/
theorem allocated_ip_in_cidr_and_fresh_witness :
    (167772160 : Nat) < 167772162 ∧
    (167772162 : Nat) < 167772160 + 2 ^ (32 - 24) - 1 ∧
    ∀ e ∈ exAccountAfterP1.Peers, e.2.IP ≠ some 167772162 :=
  allocated_ip_in_cidr_and_fresh c1State1 "SK1" (exProposedPeer "P2") 2
    exAccountAfterP1 { exSetupKey with UsedTimes := 1 }
    { Key := "P2", SetupKey := "SK1", IP := some 167772162
      Meta := exMeta, Name := "P2", Status := 1 } 167772162
    (by decide) (by decide) (by decide) (by decide) (by decide) (by decide)

/-! ## Claim C7 — postconditions of a successful registration -/

/-- Claim C7: a successful registration through a valid setup key returns a
peer whose status cell reads `{Connected := false, LastSeen := now}`, whose
public key is the proposed one, inserts that peer into the account's peer map
keyed by that public key, and increments the setup key's usage count by
exactly one. -/
theorem register_success_postconditions (ms : Server.ManagerState) (setupKey : String)
    (peer : Server.Peer) (now : Nat) (account : Server.Account) (sk : Server.SetupKey)
    (hlen : (goToUpper setupKey).length ≠ 0)
    (hacc : ms.store.GetAccountBySetupKey (goToUpper setupKey) = some account)
    (hsk : Server.getAccountSetupKeyByKey account (goToUpper setupKey) = some sk)
    (hvalid : sk.IsValid now = true) :
    ∃ np, (Server.AddPeer ms setupKey peer now true).1 = none ∧
      (Server.AddPeer ms setupKey peer now true).2.2 = some np ∧
      np.Key = peer.Key ∧
      (Server.AddPeer ms setupKey peer now true).2.1.heap np.Status =
        { LastSeen := now, Connected := false } ∧
      ∃ acct2,
        (Server.AddPeer ms setupKey peer now true).2.1.store.Accounts.lookup account.Id =
          some acct2 ∧
        acct2.Peers.lookup peer.Key = some np ∧
        (acct2.SetupKeys.lookup sk.Key).map (fun s2 => s2.UsedTimes) =
          some (sk.UsedTimes + 1) := by
  rw [AddPeer_eval_success ms setupKey peer now account sk hlen hacc hsk hvalid]
  refine ⟨_, rfl, rfl, rfl, ?_, ?_⟩
  · simp [Server.heapWrite]
  · refine ⟨_, lookup_assocInsert_self _ _ _, lookup_assocInsert_self _ _ _, ?_⟩
    rw [lookup_assocInsert_self]
    rfl

/-- Witness for Claim C7: registering P1 into the fresh account `acc1`. -/
theorem register_success_postconditions_witness :
    ∃ np, (Server.AddPeer exState "SK1" (exProposedPeer "P1") 1 true).1 = none ∧
      (Server.AddPeer exState "SK1" (exProposedPeer "P1") 1 true).2.2 = some np ∧
      np.Key = (exProposedPeer "P1").Key ∧
      (Server.AddPeer exState "SK1" (exProposedPeer "P1") 1 true).2.1.heap np.Status =
        { LastSeen := 1, Connected := false } ∧
      ∃ acct2,
        (Server.AddPeer exState "SK1"
            (exProposedPeer "P1") 1 true).2.1.store.Accounts.lookup exAccount.Id =
          some acct2 ∧
        acct2.Peers.lookup (exProposedPeer "P1").Key = some np ∧
        (acct2.SetupKeys.lookup exSetupKey.Key).map (fun s2 => s2.UsedTimes) =
          some (exSetupKey.UsedTimes + 1) :=
  register_success_postconditions exState "SK1" (exProposedPeer "P1") 1 exAccount
    exSetupKey (by decide) (by decide) (by decide) (by decide)

/-! ## Claim C3 — reconciliation for non-empty updates -/

/-- Claim C3 (amended): for every update carrying a NON-empty remote peer
list, the keys of `conns` after the handler runs, together with the pubkeys
of the peers handed to spawned initializers, are exactly the pubkeys listed
in the update; an update with an empty list, however, is ignored outright
(see the counterexample), so reconciling against the empty set does NOT
remove the remaining peers. -/
theorem reconcile_nonempty_converges (conns : List (String × Internal.Connection))
    (remotePeers : List Internal.RemotePeerConfig) (k : String)
    (hne : remotePeers ≠ []) :
    ((k ∈ (Internal.receiveManagementEvents conns remotePeers).1.map (fun e => e.1)) ∨
     (k ∈ (Internal.receiveManagementEvents conns remotePeers).2.map
        (fun p => p.WgPubKey))) ↔
    k ∈ remotePeers.map (fun p => p.WgPubKey) := by
  have hlen : remotePeers.length ≠ 0 := fun h0 => hne (List.length_eq_zero.mp h0)
  unfold Internal.receiveManagementEvents
  rw [if_pos hlen]
  dsimp only
  constructor
  · rintro (hc | hs)
    · obtain ⟨e, he, hek⟩ := List.mem_map.mp hc
      have hmem := (List.mem_filter.mp he).2
      rw [hek] at hmem
      exact List.elem_iff.mp hmem
    · obtain ⟨q, hq, hqk⟩ := List.mem_map.mp hs
      obtain ⟨p, hp, hpq⟩ := List.mem_filterMap.mp hq
      by_cases hcond : ((conns.filter fun e =>
          (remotePeers.map fun p2 => p2.WgPubKey).contains e.1).lookup
            p.WgPubKey).isNone = true
      · rw [if_pos hcond] at hpq
        have hqp : q.WgPubKey = p.WgPubKey := by
          cases hpq
          rfl
        rw [← hqk, hqp]
        exact List.mem_map.mpr ⟨p, hp, rfl⟩
      · rw [if_neg hcond] at hpq
        cases hpq
  · intro hk
    obtain ⟨p, hp, hpk⟩ := List.mem_map.mp hk
    by_cases hcond : ((conns.filter fun e =>
        (remotePeers.map fun p2 => p2.WgPubKey).contains e.1).lookup
          p.WgPubKey).isNone = true
    · right
      refine List.mem_map.mpr
        ⟨{ WgPubKey := p.WgPubKey
           WgAllowedIps := String.intercalate "," p.AllowedIps }, ?_, hpk⟩
      exact List.mem_filterMap.mpr ⟨p, hp, by rw [if_pos hcond]⟩
    · left
      have hnn : ((conns.filter fun e =>
          (remotePeers.map fun p2 => p2.WgPubKey).contains e.1).lookup
            p.WgPubKey) ≠ none := by
        intro hn
        exact hcond (by rw [hn]; rfl)
      obtain ⟨c, hc⟩ := Option.ne_none_iff_exists'.mp hnn
      have hm := mem_keys_of_lookup_some _ _ _ hc
      rw [hpk] at hm
      exact hm

/-- Witness for the amended Claim C3: reconciling `conns = {P1}` against the
one-element update `{P2}`. -/
theorem reconcile_nonempty_converges_witness :
    ([({ WgPubKey := "P2", AllowedIps := ["10.0.0.3/32"] } :
        Internal.RemotePeerConfig)] ≠ []) ∧
    ((("P2" ∈ (Internal.receiveManagementEvents [("P1", exConnIdle)]
        [{ WgPubKey := "P2", AllowedIps := ["10.0.0.3/32"] }]).1.map (fun e => e.1)) ∨
      ("P2" ∈ (Internal.receiveManagementEvents [("P1", exConnIdle)]
        [{ WgPubKey := "P2", AllowedIps := ["10.0.0.3/32"] }]).2.map
          (fun p => p.WgPubKey))) ↔
     "P2" ∈ ([{ WgPubKey := "P2", AllowedIps := ["10.0.0.3/32"] }] :
        List Internal.RemotePeerConfig).map (fun p => p.WgPubKey)) :=
  ⟨by decide, reconcile_nonempty_converges [("P1", exConnIdle)]
    [{ WgPubKey := "P2", AllowedIps := ["10.0.0.3/32"] }] "P2" (by decide)⟩

/-! ## Claim C9 — rename round-trip -/

/-- Claim C9: after a successful `RenamePeer`, `GetPeer` returns a peer whose
`Name` is the new name and whose remaining fields — public key, setup key,
IP, machine metadata, and status reference (hence the observed status; the
status heap itself is untouched) — equal those of the stored peer before the
rename. -/
theorem rename_roundtrip_preserves_fields (ms : Server.ManagerState)
    (pre post : List (String × Server.Account)) (accountId : String)
    (acct : Server.Account) (peerKey newName : String) (p : Server.Peer)
    (hacc : ms.store.Accounts = pre ++ (accountId, acct) :: post)
    (hpre1 : ∀ e ∈ pre, e.2.Peers.lookup peerKey = none)
    (hpre2 : ∀ e ∈ pre, e.1 ≠ accountId)
    (hp : acct.Peers.lookup peerKey = some p)
    (hkey : p.Key = peerKey) :
    ∃ p2, (Server.RenamePeer ms accountId peerKey newName true).1 = none ∧
      (Server.RenamePeer ms accountId peerKey newName true).2.2 = some p2 ∧
      Server.GetPeer (Server.RenamePeer ms accountId peerKey newName true).2.1 peerKey =
        some p2 ∧
      (Server.RenamePeer ms accountId peerKey newName true).2.1.heap = ms.heap ∧
      p2.Name = newName ∧ p2.Key = p.Key ∧ p2.SetupKey = p.SetupKey ∧
      p2.IP = p.IP ∧ p2.Meta = p.Meta ∧ p2.Status = p.Status := by
  subst hkey
  have hgetp : ms.store.GetPeer p.Key = some p := by
    unfold Server.Store.GetPeer
    rw [hacc, findSome?_append_left_none _ _ _ (fun e he => hpre1 e he)]
    simp [List.findSome?_cons, hp]
  have hlksave : ms.store.Accounts.lookup accountId = some acct := by
    rw [hacc,
      lookup_append_left_none _ _ _ (lookup_none_of_keys_ne pre accountId hpre2),
      lookup_cons_eq, if_pos rfl]
  simp only [Server.RenamePeer, hgetp, Server.Store.SavePeer, hlksave]
  refine ⟨_, rfl, rfl, ?_, rfl, rfl, rfl, rfl, rfl, rfl, rfl⟩
  unfold Server.GetPeer Server.Store.GetPeer
  rw [if_pos trivial]
  dsimp only [Server.Peer.Copy]
  rw [hacc, assocInsert_decomp pre post accountId acct _ hpre2]
  rw [findSome?_append_left_none _ _ _ (fun e he => hpre1 e he)]
  simp only [List.findSome?_cons]
  rw [lookup_assocInsert_self]

/-- Witness for Claim C9: renaming the stored peer `PK` to "renamed". -/
theorem rename_roundtrip_preserves_fields_witness :
    ∃ p2, (Server.RenamePeer exMarkState "acc1" "PK" "renamed" true).1 = none ∧
      (Server.RenamePeer exMarkState "acc1" "PK" "renamed" true).2.2 = some p2 ∧
      Server.GetPeer (Server.RenamePeer exMarkState "acc1" "PK" "renamed" true).2.1
        "PK" = some p2 ∧
      (Server.RenamePeer exMarkState "acc1" "PK" "renamed" true).2.1.heap =
        exMarkState.heap ∧
      p2.Name = "renamed" ∧ p2.Key = exStoredPeer.Key ∧
      p2.SetupKey = exStoredPeer.SetupKey ∧ p2.IP = exStoredPeer.IP ∧
      p2.Meta = exStoredPeer.Meta ∧ p2.Status = exStoredPeer.Status :=
  rename_roundtrip_preserves_fields exMarkState [] [] "acc1" exMarkAccount
    "PK" "renamed" exStoredPeer (by decide) (by simp) (by simp) (by decide) (by decide)

/-! ## Claim C6 — setup-key validation and usage exhaustion -/

/-- `AddPeer` on a non-empty normalized key owned by no account. -/
theorem AddPeer_notfound (ms : Server.ManagerState) (setupKey : String)
    (peer : Server.Peer) (now : Nat) (saveOk : Bool)
    (hlen : (goToUpper setupKey).length ≠ 0)
    (hnone : ms.store.GetAccountBySetupKey (goToUpper setupKey) = none) :
    Server.AddPeer ms setupKey peer now saveOk =
      (some Server.ErrCode.NotFound, ms, none) := by
  simp only [Server.AddPeer, if_neg hlen, hnone]

/-- `AddPeer` on a key that resolves to an invalid SetupKey. -/
theorem AddPeer_failedprecondition (ms : Server.ManagerState) (setupKey : String)
    (peer : Server.Peer) (now : Nat) (saveOk : Bool) (account : Server.Account)
    (sk : Server.SetupKey)
    (hlen : (goToUpper setupKey).length ≠ 0)
    (hacc : ms.store.GetAccountBySetupKey (goToUpper setupKey) = some account)
    (hsk : Server.getAccountSetupKeyByKey account (goToUpper setupKey) = some sk)
    (hinvalid : sk.IsValid now = false) :
    Server.AddPeer ms setupKey peer now saveOk =
      (some Server.ErrCode.FailedPrecondition, ms, none) := by
  simp only [Server.AddPeer, if_neg hlen, hacc, hsk, hinvalid, Bool.not_false]
  rfl

/-- `GetAccountBySetupKey` on a store decomposed around the first account
owning the key. -/
theorem getAccountBySetupKey_decomp (s : Server.Store)
    (pre post : List (String × Server.Account)) (aid upper : String)
    (acct : Server.Account)
    (hacc : s.Accounts = pre ++ (aid, acct) :: post)
    (hpre1 : ∀ e ∈ pre, e.2.SetupKeys.lookup upper = none)
    (hsome : (acct.SetupKeys.lookup upper).isSome = true) :
    s.GetAccountBySetupKey upper = some acct := by
  unfold Server.Store.GetAccountBySetupKey
  rw [hacc, find?_append_left_false _ _ _ (fun e he => by rw [hpre1 e he]; rfl)]
  rw [find?_cons_true (aid, acct) post
    (fun e => (e.2.SetupKeys.lookup upper).isSome) hsome]
  rfl

/-- Running a register sequence through one setup key: when the key record's
remaining usage budget covers the whole sequence, every call succeeds and the
usage count grows by exactly the number of registrations. -/
theorem registerSeq_usage (upper : String) (now : Nat) (aid : String)
    (pre : List (String × Server.Account))
    (hup : goToUpper upper = upper) (hlen : upper.length ≠ 0)
    (hpre2 : ∀ e ∈ pre, e.1 ≠ aid) :
    ∀ (ps : List Server.Peer) (ms : Server.ManagerState)
      (post : List (String × Server.Account)) (acct : Server.Account)
      (sk : Server.SetupKey),
      ms.store.Accounts = pre ++ (aid, acct) :: post →
      (∀ e ∈ pre, e.2.SetupKeys.lookup upper = none) →
      acct.Id = aid →
      acct.SetupKeys.lookup upper = some sk →
      sk.Key = upper →
      sk.Revoked = false →
      now < sk.ExpiresAt →
      sk.UsedTimes + ps.length ≤ sk.UsageLimit →
      (Server.registerSeq upper now ms ps).2 = true ∧
      ∃ acct2 post2,
        (Server.registerSeq upper now ms ps).1.store.Accounts =
          pre ++ (aid, acct2) :: post2 ∧
        acct2.Id = aid ∧
        acct2.SetupKeys.lookup upper =
          some { sk with UsedTimes := sk.UsedTimes + ps.length } := by
  intro ps
  induction ps with
  | nil =>
    intro ms post acct sk hacc hpre1 hid hsk hskkey hrev hexp hbound
    exact ⟨rfl, acct, post, hacc, hid, by simpa using hsk⟩
  | cons p ps ih =>
    intro ms post acct sk hacc hpre1 hid hsk hskkey hrev hexp hbound
    have husval : sk.UsedTimes < sk.UsageLimit := by
      simp only [List.length_cons] at hbound
      omega
    have hvalid : sk.IsValid now = true := by
      simp [Server.SetupKey.IsValid, hrev, hexp, husval]
    have hfind : ms.store.GetAccountBySetupKey upper = some acct :=
      getAccountBySetupKey_decomp ms.store pre post aid upper acct hacc hpre1
        (by rw [hsk]; rfl)
    have heval := AddPeer_eval_success ms upper p now acct sk
      (by rw [hup]; exact hlen) (by rw [hup]; exact hfind) (by rw [hup]; exact hsk)
      hvalid
    have hacc2 : (Server.AddPeer ms upper p now true).2.1.store.Accounts =
        pre ++ (aid, { acct with
          Peers := assocInsert acct.Peers p.Key
            { Key := p.Key, SetupKey := sk.Key
              IP := Server.AllocatePeerIP acct.Network.Net
                      (acct.Peers.map (fun e => e.2.IP))
              Meta := p.Meta, Name := p.Name, Status := ms.nextRef }
          SetupKeys := assocInsert acct.SetupKeys sk.Key sk.IncrementUsage }) ::
          post.map (fun e => if e.1 == aid then (aid, { acct with
            Peers := assocInsert acct.Peers p.Key
              { Key := p.Key, SetupKey := sk.Key
                IP := Server.AllocatePeerIP acct.Network.Net
                        (acct.Peers.map (fun e => e.2.IP))
                Meta := p.Meta, Name := p.Name, Status := ms.nextRef }
            SetupKeys := assocInsert acct.SetupKeys sk.Key sk.IncrementUsage }) else e) := by
      rw [heval]
      show (ms.store.SaveAccount _).Accounts = _
      unfold Server.Store.SaveAccount
      show assocInsert ms.store.Accounts acct.Id _ = _
      rw [hid, hacc, assocInsert_decomp pre post aid acct _ hpre2]
    have hsk2 : ({ acct with
        Peers := assocInsert acct.Peers p.Key
          { Key := p.Key, SetupKey := sk.Key
            IP := Server.AllocatePeerIP acct.Network.Net
                    (acct.Peers.map (fun e => e.2.IP))
            Meta := p.Meta, Name := p.Name, Status := ms.nextRef }
        SetupKeys := assocInsert acct.SetupKeys sk.Key sk.IncrementUsage } :
          Server.Account).SetupKeys.lookup upper = some sk.IncrementUsage := by
      show (assocInsert acct.SetupKeys sk.Key sk.IncrementUsage).lookup upper =
        some sk.IncrementUsage
      rw [← hskkey]
      exact lookup_assocInsert_self _ _ _
    obtain ⟨hflag, acct3, post3, hshape, hid3, hlook⟩ :=
      ih (Server.AddPeer ms upper p now true).2.1 _ _ sk.IncrementUsage hacc2 hpre1
        hid hsk2 hskkey hrev hexp
        (by simp only [Server.SetupKey.IncrementUsage, List.length_cons] at hbound ⊢; omega)
    constructor
    · show (Server.registerSeq upper now ms (p :: ps)).2 = true
      simp only [Server.registerSeq]
      rw [show (Server.AddPeer ms upper p now true).1 = none by rw [heval]]
      simpa using hflag
    · refine ⟨acct3, post3, ?_, hid3, ?_⟩
      · show (Server.registerSeq upper now ms (p :: ps)).1.store.Accounts = _
        simp only [Server.registerSeq]
        exact hshape
      · rw [hlook]
        have harith : sk.IncrementUsage.UsedTimes + ps.length =
            sk.UsedTimes + (p :: ps).length := by
          simp only [Server.SetupKey.IncrementUsage, List.length_cons]
          omega
        simp only [Server.SetupKey.IncrementUsage]
        simp only [Server.SetupKey.IncrementUsage] at harith
        rw [harith]

/-- Claim C6: a (non-empty, upper-case-normalized) setup key owned by no
account makes `AddPeer` fail with `NotFound`; a key that resolves to an
invalid SetupKey record (expired, revoked, or at its usage limit) makes it
fail with `FailedPrecondition`; consequently, starting from a key with usage
0 and limit N, a sequence of N registrations all succeed, and the (N+1)-th
registration with the same key fails with `FailedPrecondition` leaving the
state unchanged. -/
theorem setup_key_validation_and_exhaustion :
    (∀ (ms : Server.ManagerState) (setupKey : String) (peer : Server.Peer)
       (now : Nat) (saveOk : Bool),
      (goToUpper setupKey).length ≠ 0 →
      ms.store.GetAccountBySetupKey (goToUpper setupKey) = none →
      Server.AddPeer ms setupKey peer now saveOk =
        (some Server.ErrCode.NotFound, ms, none)) ∧
    (∀ (ms : Server.ManagerState) (setupKey : String) (peer : Server.Peer)
       (now : Nat) (saveOk : Bool) (account : Server.Account) (sk : Server.SetupKey),
      (goToUpper setupKey).length ≠ 0 →
      ms.store.GetAccountBySetupKey (goToUpper setupKey) = some account →
      Server.getAccountSetupKeyByKey account (goToUpper setupKey) = some sk →
      sk.IsValid now = false →
      Server.AddPeer ms setupKey peer now saveOk =
        (some Server.ErrCode.FailedPrecondition, ms, none)) ∧
    (∀ (upper : String) (now : Nat) (aid : String)
       (pre post : List (String × Server.Account)) (ms : Server.ManagerState)
       (acct : Server.Account) (sk : Server.SetupKey) (ps : List Server.Peer)
       (peer : Server.Peer),
      goToUpper upper = upper → upper.length ≠ 0 →
      ms.store.Accounts = pre ++ (aid, acct) :: post →
      (∀ e ∈ pre, e.2.SetupKeys.lookup upper = none) →
      (∀ e ∈ pre, e.1 ≠ aid) →
      acct.Id = aid →
      acct.SetupKeys.lookup upper = some sk →
      sk.Key = upper →
      sk.Revoked = false →
      now < sk.ExpiresAt →
      sk.UsedTimes = 0 →
      sk.UsageLimit = ps.length →
      (Server.registerSeq upper now ms ps).2 = true ∧
      Server.AddPeer (Server.registerSeq upper now ms ps).1 upper peer now true =
        (some Server.ErrCode.FailedPrecondition,
         (Server.registerSeq upper now ms ps).1, none)) := by
  refine ⟨?_, ?_, ?_⟩
  · intro ms setupKey peer now saveOk hlen hnone
    exact AddPeer_notfound ms setupKey peer now saveOk hlen hnone
  · intro ms setupKey peer now saveOk account sk hlen hacc hsk hinvalid
    exact AddPeer_failedprecondition ms setupKey peer now saveOk account sk
      hlen hacc hsk hinvalid
  · intro upper now aid pre post ms acct sk ps peer hup hlen hacc hpre1 hpre2 hid
      hsk hskkey hrev hexp huse hlim
    obtain ⟨hflag, acct2, post2, hshape, hid2, hlook⟩ :=
      registerSeq_usage upper now aid pre hup hlen hpre2 ps ms post acct sk hacc
        hpre1 hid hsk hskkey hrev hexp (by omega)
    refine ⟨hflag, ?_⟩
    have hfind2 : (Server.registerSeq upper now ms ps).1.store.GetAccountBySetupKey
        upper = some acct2 :=
      getAccountBySetupKey_decomp _ pre post2 aid upper acct2 hshape hpre1
        (by rw [hlook]; rfl)
    have hinvalid2 : ({ sk with UsedTimes := sk.UsedTimes + ps.length } :
        Server.SetupKey).IsValid now = false := by
      simp [Server.SetupKey.IsValid]
      intro _ _
      omega
    exact AddPeer_failedprecondition _ upper peer now true acct2
      { sk with UsedTimes := sk.UsedTimes + ps.length }
      (by rw [hup]; exact hlen) (by rw [hup]; exact hfind2)
      (by rw [hup]; exact hlook) hinvalid2

/-- Witness for Claim C6: an unknown key fails `NotFound`; a spent key (5 of
5 uses) fails `FailedPrecondition`; the one-shot key `LK1` (limit 1) admits
one registration and rejects the second with `FailedPrecondition`. -/
theorem setup_key_validation_and_exhaustion_witness :
    Server.AddPeer exState "NOPE" (exProposedPeer "PX") 1 true =
      (some Server.ErrCode.NotFound, exState, none) ∧
    Server.AddPeer exSpentState "LK" (exProposedPeer "PY") 1 true =
      (some Server.ErrCode.FailedPrecondition, exSpentState, none) ∧
    ((Server.registerSeq "LK1" 1 exOneShotState [exProposedPeer "Q1"]).2 = true ∧
      Server.AddPeer (Server.registerSeq "LK1" 1 exOneShotState
          [exProposedPeer "Q1"]).1 "LK1" (exProposedPeer "Q2") 1 true =
        (some Server.ErrCode.FailedPrecondition,
         (Server.registerSeq "LK1" 1 exOneShotState [exProposedPeer "Q1"]).1,
         none)) :=
  ⟨setup_key_validation_and_exhaustion.1 exState "NOPE" (exProposedPeer "PX") 1 true
    (by decide) (by decide),
   setup_key_validation_and_exhaustion.2.1 exSpentState "LK" (exProposedPeer "PY") 1
    true exSpentAccount exSpentKey (by decide) (by decide) (by decide) (by decide),
   setup_key_validation_and_exhaustion.2.2 "LK1" 1 "acc3" [] [] exOneShotState
    exOneShotAccount exOneShotKey [exProposedPeer "Q1"] (exProposedPeer "Q2")
    (by decide) (by decide) (by decide) (by simp) (by simp) (by decide) (by decide)
    (by decide) (by decide) (by decide) (by decide) (by decide)⟩
